import Mathlib

/-!
Verification of the IndiaMART scraper (`src/scraper.py`).

Shallow embedding: Python strings are modelled as `List Char`; the helper
functions of the scraper (URL normalization, link classification, field
extraction, pagination, retry navigation, collection and deduplication) are
translated into executable Lean definitions, and the specification's claims
about them are stated and proved below.

Library functions of Python (`urllib.parse`, `re`, `str` methods) are modelled
explicitly; each model carries a doc comment describing the fragment of the
library behaviour it captures.
-/

namespace Scraper

/-- Python `str` values, modelled as lists of characters. -/
abbrev PyStr := List Char

/-- Coerce a Lean string literal to the `List Char` model. -/
def str (s : String) : PyStr := s.data

/-- Python whitespace (`str.strip` default set), ASCII fragment. -/
def pyIsSpace (c : Char) : Bool := c = ' ' ∨ c = '\t' ∨ c = '\n' ∨ c = '\r' ∨ c = '\x0b' ∨ c = '\x0c'

/-- Python `str.strip()`: leading part. -/
def pyLStrip (s : PyStr) : PyStr := s.dropWhile pyIsSpace

/-- Python `str.strip()`: trailing part. -/
def pyRStrip (s : PyStr) : PyStr := (s.reverse.dropWhile pyIsSpace).reverse

/-- Python `str.strip()` (ASCII whitespace fragment). -/
def pyStrip (s : PyStr) : PyStr := pyRStrip (pyLStrip s)

/-- Python `str.strip(chars)` for a single character, e.g. `path.strip("/")`. -/
def pyStripChar (ch : Char) (s : PyStr) : PyStr :=
  ((s.dropWhile (fun c => c = ch)).reverse.dropWhile (fun c => c = ch)).reverse

/-- Python `str.lower()` (ASCII fragment, via `Char.toLower`). -/
def pyLower (s : PyStr) : PyStr := s.map Char.toLower

/-- Python `s.startswith(p)`. -/
def pyStartsWith : PyStr → PyStr → Bool
  | _, [] => true
  | [], _ :: _ => false
  | c :: s, d :: p => if c = d then pyStartsWith s p else false

/-- Python `s.endswith(p)`. -/
def pyEndsWith (s p : PyStr) : Bool := pyStartsWith s.reverse p.reverse

/-- Python substring containment `pat in s`. -/
def pyContainsSub (pat : PyStr) : PyStr → Bool
  | [] => decide (pat = [])
  | c :: rest => pyStartsWith (c :: rest) pat || pyContainsSub pat rest

/-- Split a string at the first occurrence of a separator character
(`s.split(sep, 1)` when the separator occurs). -/
def splitOnceChar (sep : Char) : PyStr → Option (PyStr × PyStr)
  | [] => none
  | c :: rest =>
    if c = sep then some ([], rest)
    else
      match splitOnceChar sep rest with
      | some (a, b) => some (c :: a, b)
      | none => none

/-- Split a string at the first occurrence of a separator substring
(`s.split(pat, 1)` when `pat` occurs; `none` when it does not). -/
def splitOnceSub (pat : PyStr) : PyStr → Option (PyStr × PyStr)
  | [] => if pat = [] then some ([], []) else none
  | c :: rest =>
    if pyStartsWith (c :: rest) pat then some ([], (c :: rest).drop pat.length)
    else
      match splitOnceSub pat rest with
      | some (a, b) => some (c :: a, b)
      | none => none

/-- `s.split("\n")[0]`: the part of `s` before the first newline. -/
def pyFirstLine (s : PyStr) : PyStr := s.takeWhile (fun c => !(c = '\n'))

/-- URL components used by the scraper: `scheme`, `netloc`, `path`. -/
structure UrlParts where
  scheme : PyStr
  netloc : PyStr
  path : PyStr
deriving DecidableEq, Repr

/-- Characters allowed in a URL scheme (`urllib.parse` scheme_chars fragment). -/
def isSchemeChar (c : Char) : Bool := c.isAlpha ∨ c.isDigit ∨ c = '+' ∨ c = '-' ∨ c = '.'

/-- True until the character ends the netloc (`/`, `?` or `#`). -/
def urlNoDelim (c : Char) : Bool := !(c = '/' ∨ c = '?' ∨ c = '#')

/-- True until the character ends the path (`?` or `#`). -/
def urlPathChar (c : Char) : Bool := !(c = '?' ∨ c = '#')

/-- Parse the scheme-free part of a URL into netloc and path. -/
def parseRest (scheme rest : PyStr) : UrlParts :=
  if pyStartsWith rest (str "//") then
    { scheme := scheme
      netloc := (rest.drop 2).takeWhile urlNoDelim
      path := ((rest.drop 2).dropWhile urlNoDelim).takeWhile urlPathChar }
  else
    { scheme := scheme, netloc := [], path := rest.takeWhile urlPathChar }

/-- Models `urllib.parse.urlparse` for the fields the scraper reads
(`scheme`, `netloc`, `path`); query and fragment are discarded, and the
rare `ValueError` cases of CPython's parser are not modelled (the scraper
turns them into `False` anyway). -/
def urlparse (u : PyStr) : UrlParts :=
  match splitOnceChar ':' u with
  | some (pre, post) =>
    if pre ≠ [] ∧ (pre.headD ' ').isAlpha ∧ pre.all isSchemeChar then
      parseRest (pyLower pre) post
    else parseRest [] u
  | none => parseRest [] u

/-- The part of a path up to and including its last `/` (used by relative
URL resolution). -/
def pyDirname (p : PyStr) : PyStr := (p.reverse.dropWhile (fun c => !(c = '/'))).reverse

/-- Models `urllib.parse.urljoin` for the href shapes the scraper produces:
protocol-relative references, absolute-path references, and plain relative
references against an `http(s)://host/...` base. Dot-segment collapsing and
scheme-bearing relative references are outside the modelled fragment (no
claim depends on them). `urljoin(base, "")` is `base`, as in CPython. -/
def pyUrljoin (base url : PyStr) : PyStr :=
  if url = [] then base
  else
    let bp := urlparse base
    if pyStartsWith url (str "//") then bp.scheme ++ ':' :: url
    else if pyStartsWith url (str "/") then bp.scheme ++ str "://" ++ bp.netloc ++ url
    else bp.scheme ++ str "://" ++ bp.netloc ++ pyDirname bp.path ++ url

/-- `normalize_any_url` from `src/scraper.py`. -/
def normalize_any_url (href base_url : PyStr) : PyStr :=
  if href = [] then []
  else
    let h := pyStrip href
    if pyStartsWith h (str "//") then str "https:" ++ h
    else if pyStartsWith h (str "http") then h
    else pyUrljoin base_url h

/-- `normalize_indiamart_url` from `src/scraper.py` (`page_url` optional). -/
def normalize_indiamart_url (href : PyStr) (page_url : Option PyStr) : PyStr :=
  if href = [] then []
  else
    let h := pyStrip href
    if pyStartsWith h (str "//") || pyStartsWith h (str "http") then
      normalize_any_url h (str "https://www.indiamart.com/")
    else if pyStartsWith h (str "/impcat/") || pyStartsWith h (str "impcat/") then
      normalize_any_url h (str "https://dir.indiamart.com/")
    else if pyStartsWith h (str "/proddetail/") || pyStartsWith h (str "proddetail/") then
      normalize_any_url h (str "https://www.indiamart.com/")
    else if pyStartsWith h (str "/company/") || pyStartsWith h (str "company/") then
      normalize_any_url h (str "https://www.indiamart.com/")
    else if pyStartsWith h (str "/") then
      normalize_any_url h (str "https://www.indiamart.com/")
    else
      match page_url with
      | some pu => normalize_any_url h pu
      | none => normalize_any_url h (str "https://www.indiamart.com/")

/-- `looks_like_supplier_url` from `src/scraper.py`. -/
def looks_like_supplier_url (url : PyStr) : Bool :=
  let host := pyLower (urlparse url).netloc
  if pyEndsWith host (str "indiamart.com") then
    let path := pyLower (pyStripChar '/' (urlparse url).path)
    if path = [] then false
    else
      let first := path.takeWhile (fun c => !(c = '/'))
      if first = str "proddetail" ∨ first = str "impcat" ∨ first = str "search" then false
      else if first = str "company" then true
      else decide ((List.splitOn '/' path).length = 1)
  else false

/-- `\s` of Python `re` (ASCII fragment). -/
def reIsSpace (c : Char) : Bool := pyIsSpace c

/-- `[\d,]` of the price pattern (ASCII digit fragment of `\d`). -/
def isDigitComma (c : Char) : Bool := c.isDigit ∨ c = ','

/-- `\w` of Python `re` (ASCII fragment). -/
def isWordChar (c : Char) : Bool := c.isAlpha ∨ c.isDigit ∨ c = '_'

/-- Greedy `[\d,]+`: longest nonempty digit-or-comma run at the front. -/
def digitRun (s : PyStr) : Option (PyStr × PyStr) :=
  let d := s.takeWhile isDigitComma
  if d = [] then none else some (d, s.dropWhile isDigitComma)

/-- Greedy `\w+`: longest nonempty word-character run at the front. -/
def wordRun (s : PyStr) : Option PyStr :=
  let w := s.takeWhile isWordChar
  if w = [] then none else some w

/-- The optional unit suffix `(?:\s*/\s*\w+)?` of the price pattern:
returns the matched text when the group matches at the front of `s`. -/
def priceUnitSuffix (s : PyStr) : Option PyStr :=
  let w2 := s.takeWhile reIsSpace
  match s.dropWhile reIsSpace with
  | '/' :: r3 =>
    let w3 := r3.takeWhile reIsSpace
    match wordRun (r3.dropWhile reIsSpace) with
    | some wd => some (w2 ++ '/' :: (w3 ++ wd))
    | none => none
  | _ => none

/-- First alternative `₹\s*[\d,]+(?:\s*/\s*\w+)?` of the price pattern,
matched at the front of `s` (greedy, which is exact here: no successful
backtracking exists for this pattern). -/
def priceAlt1 : PyStr → Option PyStr
  | '₹' :: rest =>
    let w1 := rest.takeWhile reIsSpace
    match digitRun (rest.dropWhile reIsSpace) with
    | some (d, r2) =>
      match priceUnitSuffix r2 with
      | some u => some ('₹' :: (w1 ++ d ++ u))
      | none => some ('₹' :: (w1 ++ d))
    | none => none
  | _ => none

/-- Second alternative `Rs\.?\s*[\d,]+` of the price pattern with
`re.IGNORECASE`, matched at the front of `s`. -/
def priceAlt2 : PyStr → Option PyStr
  | c1 :: c2 :: rest =>
    if (c1 = 'R' ∨ c1 = 'r') ∧ (c2 = 'S' ∨ c2 = 's') then
      let (dot, r1) : PyStr × PyStr :=
        match rest with
        | '.' :: r => (['.'], r)
        | r => ([], r)
      let w := r1.takeWhile reIsSpace
      match digitRun (r1.dropWhile reIsSpace) with
      | some (d, _) => some (c1 :: c2 :: (dot ++ w ++ d))
      | none => none
    else none
  | _ => none

/-- Models `re.search` for the price pattern
`₹\s*[\d,]+(?:\s*/\s*\w+)?|Rs\.?\s*[\d,]+` with `re.IGNORECASE`: leftmost
match, first alternative preferred at equal start position; returns the
matched text (`match.group(0)`). -/
def re_search_price : PyStr → Option PyStr
  | [] => none
  | c :: rest =>
    match priceAlt1 (c :: rest) with
    | some m => some m
    | none =>
      match priceAlt2 (c :: rest) with
      | some m => some m
      | none => re_search_price rest

/-- `extract_price` from `src/scraper.py`. -/
def extract_price (text : PyStr) : PyStr :=
  if text = [] then []
  else
    match re_search_price text with
    | none => []
    | some m =>
      let s := pyStrip m
      if s = [] then [] else pyStrip (pyFirstLine s)

/-- `extract_location` from `src/scraper.py`. -/
def extract_location (text : PyStr) : PyStr :=
  if text = [] then []
  else if pyContainsSub (str "Contact Supplier") text then
    match splitOnceSub (str "Contact Supplier") text with
    | none => []
    | some (_, after) =>
      let a := pyStrip after
      let lines := ((List.splitOn '\n' a).map pyStrip).filter (fun l => l ≠ [])
      match lines with
      | [] => []
      | l :: _ => l
  else []

/-- `MAX_RETRIES` from `src/scraper.py`. -/
def MAX_RETRIES : Nat := 4

/-- `RETRY_BACKOFF_BASE` from `src/scraper.py`. -/
def RETRY_BACKOFF_BASE : Nat := 2

/-- Outcome of `goto_with_retries`: either the navigation eventually
succeeded or the last error was re-raised; both record the sequence of
back-off sleeps (in seconds) performed between attempts. -/
inductive NavOutcome where
  | ok (sleeps : List Nat)
  | raised (sleeps : List Nat)
deriving DecidableEq, Repr

/-- The `for attempt in range(MAX_RETRIES)` loop of `goto_with_retries`,
with the outcome of each `page.goto` attempt given by the oracle `fails`
(`true` = the attempt raises). The fuel argument counts the remaining
loop iterations. -/
def goto_loop (fails : Nat → Bool) : Nat → Nat → NavOutcome
  | _, 0 => .raised []
  | attempt, fuel + 1 =>
    if fails attempt then
      if attempt < MAX_RETRIES - 1 then
        match goto_loop fails (attempt + 1) fuel with
        | .ok s => .ok (RETRY_BACKOFF_BASE ^ (attempt + 1) :: s)
        | .raised s => .raised (RETRY_BACKOFF_BASE ^ (attempt + 1) :: s)
      else .raised []
    else .ok []

/-- `goto_with_retries` from `src/scraper.py`, as a function of the
per-attempt failure oracle. -/
def goto_with_retries (fails : Nat → Bool) : NavOutcome :=
  goto_loop fails 0 MAX_RETRIES

/-- An anchor tag as seen by the pagination walker: its `rel` attribute
(`none` when absent; BeautifulSoup represents `rel` as a list of tokens),
its `href` attribute (`none` when absent), and its
`get_text(" ", strip=True)` rendering. -/
structure NavAnchor where
  rel : Option (List PyStr)
  href : Option PyStr
  text : PyStr
deriving DecidableEq, Repr

/-- The `attrs={"rel": lambda v: v and ("next" in v if isinstance(v, list)
else ...)}` filter of `find_next_page_url`; with BeautifulSoup's
`html.parser`, `rel` is always a multi-valued (list) attribute, so the list
branch of the lambda applies; an absent attribute is passed as `None`,
which is falsy. -/
def rel_next_attr (a : NavAnchor) : Bool :=
  match a.rel with
  | none => false
  | some v => decide (v ≠ [] ∧ str "next" ∈ v)

/-- The fixed "next-like" text tokens of `find_next_page_url`. -/
def next_text_tokens : List PyStr :=
  [str "next", str "next >", str "next »", str "›", str "»", str ">"]

/-- The second phase of `find_next_page_url`: scan the anchors that carry
an `href` attribute (`find_all("a", href=True)`), in document order, for
next-like anchor text, and return the first normalized candidate that is
non-empty and different from the current URL. -/
def next_text_scan (current : PyStr) : List NavAnchor → Option PyStr
  | [] => none
  | a :: rest =>
    match a.href with
    | none => next_text_scan current rest
    | some h =>
      let t := pyLower (pyStrip a.text)
      if t ∈ next_text_tokens ∨ pyStartsWith t (str "next") then
        let candidate := normalize_any_url h current
        if candidate ≠ [] ∧ candidate ≠ current then some candidate
        else next_text_scan current rest
      else next_text_scan current rest

/-- `find_next_page_url` from `src/scraper.py`, over the document's anchor
list (in document order). -/
def find_next_page_url (anchors : List NavAnchor) (current : PyStr) : Option PyStr :=
  let fromRel : Option PyStr :=
    match anchors.find? rel_next_attr with
    | some a =>
      match a.href with
      | some h => if h ≠ [] ∧ pyStrip h ≠ [] then some (normalize_any_url h current) else none
      | none => none
    | none => none
  match fromRel with
  | some u => some u
  | none => next_text_scan current anchors

/-- One collected listing row (`rows.append({...})` in `scrape_category`;
`scraped_at` is attached in `main`). -/
structure Listing where
  title : PyStr
  price : PyStr
  supplier : PyStr
  location : PyStr
  category : PyStr
  url : PyStr
  scraped_at : PyStr
deriving DecidableEq, Repr

/-- An anchor tag inside a card, as used by the per-card loops: its `href`
attribute (present, since both queries use `href=proddetail_re` or
`href=True`) and its `get_text(strip=True)` rendering. -/
structure CardAnchor where
  href : PyStr
  text : PyStr
deriving DecidableEq, Repr

/-- One ancestor node of a product link, as read by the card-boundary
walk: whether its tag name is `body`, its `get_text(separator="\n",
strip=True)` rendering, and its descendant anchors that carry an `href`
attribute (in document order). -/
structure CardNode where
  isBody : Bool
  blockText : PyStr
  anchors : List CardAnchor
deriving DecidableEq, Repr

/-- The product-link pattern `re.compile(r"indiamart\.com/proddetail/")`,
used via `find_all("a", href=...)`, i.e. `re.search` on the href: substring
containment of the literal pattern. -/
def is_proddetail_href (h : PyStr) : Bool := pyContainsSub (str "indiamart.com/proddetail/") h

/-- `parent.find_all("a", href=proddetail_re)` on an ancestor node. -/
def prod_links (n : CardNode) : List CardAnchor :=
  n.anchors.filter (fun x => is_proddetail_href x.href)

/-- First card-boundary walk of `scrape_category`: climb at most 15
ancestors (stopping at `body` or at the document root), remembering the
*last* ancestor whose descendant product links are exactly the original
anchor. The Python `is a` identity check is modelled by structural
equality: along a genuine ancestor chain of `a`, a single matching link
must be `a` itself. -/
def find_card (a : CardAnchor) : Nat → List CardNode → Option CardNode
  | 0, _ => none
  | _ + 1, [] => none
  | fuel + 1, p :: up =>
    if p.isBody then none
    else
      match find_card a fuel up with
      | some c => some c
      | none => if prod_links p = [a] then some p else none

/-- Fallback card-boundary walk of `scrape_category`: the first ancestor
whose flattened text contains `₹` or `Rs`. -/
def find_card_fallback : Nat → List CardNode → Option CardNode
  | 0, _ => none
  | _ + 1, [] => none
  | fuel + 1, p :: up =>
    if p.isBody then none
    else if pyContainsSub (str "₹") p.blockText || pyContainsSub (str "Rs") p.blockText then some p
    else find_card_fallback fuel up

/-- A candidate product link together with its ancestor chain (immediate
parent first), i.e. one iteration of
`for a in soup.find_all("a", href=proddetail_re)`. -/
structure ProdItem where
  link : CardAnchor
  ancestors : List CardNode
deriving DecidableEq, Repr

/-- Card resolution for one product link: the two chained walks. -/
def resolve_card (it : ProdItem) : Option CardNode :=
  match find_card it.link 15 it.ancestors with
  | some c => some c
  | none => find_card_fallback 15 it.ancestors

/-- The supplier-link loop of `scrape_category`
(`for supplier_link in card.find_all("a", href=True)`), returning the
supplier string (empty when no anchor qualifies). -/
def supplier_from (href title cur : PyStr) : List CardAnchor → PyStr
  | [] => []
  | sl :: rest =>
    let supplier_href := normalize_indiamart_url sl.href (some cur)
    if supplier_href = [] ∨ supplier_href = href then supplier_from href title cur rest
    else if pyContainsSub (str "/proddetail/") supplier_href then supplier_from href title cur rest
    else if !looks_like_supplier_url supplier_href then supplier_from href title cur rest
    else
      let supplier_text := pyStrip sl.text
      if supplier_text = [] ∨ supplier_text = title then supplier_from href title cur rest
      else supplier_text.take 200

/-- The body of the per-product-link loop of `scrape_category`: `none`
when the candidate is skipped for a short title, otherwise the appended
row (`scraped_at` is empty here; `main` fills it in). -/
def process_item (category_name cur : PyStr) (it : ProdItem) : Option Listing :=
  let href := normalize_indiamart_url it.link.href (some cur)
  let title := pyStrip it.link.text
  if title = [] ∨ title.length < 3 then none
  else
    let card := resolve_card it
    let price := match card with | none => [] | some c => extract_price c.blockText
    let location := match card with | none => [] | some c => extract_location c.blockText
    let supplier := match card with | none => [] | some c => supplier_from href title cur c.anchors
    some
      { title := title.take 500
        price := price
        supplier := supplier
        location := if location = [] then [] else location.take 300
        category := category_name
        url := href
        scraped_at := [] }

/-- A rendered page, as the two queries of `scrape_category` see it: the
product-link candidates (each with its ancestor chain) and the anchor list
the pagination walker scans. -/
structure Page where
  items : List ProdItem
  nav : List NavAnchor

/-- Whether the collection cap is reached (`max_listings is not None and
len(rows) >= max_listings`). -/
def cap_reached (max_listings : Option Int) (n : Nat) : Bool :=
  match max_listings with
  | none => false
  | some m => decide (m ≤ (n : Int))

/-- The inner card loop of `scrape_category` over one page's product
links; the `Bool` records whether the cap-triggered early `return rows`
fired. -/
def scrape_items (category_name cur : PyStr) (max_listings : Option Int) :
    List ProdItem → List Listing → List Listing × Bool
  | [], rows => (rows, false)
  | it :: rest, rows =>
    match process_item category_name cur it with
    | none => scrape_items category_name cur max_listings rest rows
    | some r =>
      let rows' := rows ++ [r]
      if cap_reached max_listings rows'.length then (rows', true)
      else scrape_items category_name cur max_listings rest rows'

/-- The page loop of `scrape_category` (`for _page_idx in
range(max_pages)`), with pages supplied by the total `fetch` model of the
(successful) navigator. Returns the collected rows together with the list
of URLs actually navigated, in order. -/
def scrape_pages (fetch : PyStr → Page) (category_name : PyStr) (max_listings : Option Int) :
    Nat → PyStr → List PyStr → List Listing → List Listing × List PyStr
  | 0, _, _, rows => (rows, [])
  | n + 1, current_url, seen_pages, rows =>
    if current_url = [] ∨ current_url ∈ seen_pages then (rows, [])
    else
      let pg := fetch current_url
      let (rows', stopped) := scrape_items category_name current_url max_listings pg.items rows
      if stopped then (rows', [current_url])
      else
        let next := (find_next_page_url pg.nav current_url).getD []
        let (rows'', trace) :=
          scrape_pages fetch category_name max_listings n next (current_url :: seen_pages) rows'
        (rows'', current_url :: trace)

/-- `scrape_category` from `src/scraper.py` (rows and navigation trace). -/
def scrape_category (fetch : PyStr → Page) (category_name url : PyStr)
    (max_listings : Option Int) (max_pages : Nat) : List Listing × List PyStr :=
  scrape_pages fetch category_name max_listings max_pages url [] []

/-- The category loop of `main`: `remaining` is the running collection
budget (`None` = no cap); returns all appended rows (with `scraped_at`
set) and the full navigation trace. -/
def run_categories (fetch : PyStr → Page) (max_pages : Nat) (scraped_at : PyStr) :
    Option Int → List (PyStr × PyStr) → List Listing × List PyStr
  | _, [] => ([], [])
  | remaining, (category_name, url) :: rest =>
    if (match remaining with | none => false | some m => decide (m ≤ 0)) then ([], [])
    else
      let (rows, trace) := scrape_category fetch category_name url remaining max_pages
      let rows' := rows.map (fun r => { r with scraped_at := scraped_at })
      let remaining' := remaining.map (fun m => m - (rows.length : Int))
      let (rows2, trace2) := run_categories fetch max_pages scraped_at remaining' rest
      (rows' ++ rows2, trace ++ trace2)

/-- The final deduplication loop of `main`, with the `seen` set of urls
made explicit. -/
def dedup_rows_aux (seen : List PyStr) : List Listing → List Listing
  | [] => []
  | r :: rest =>
    if r.url ∈ seen then dedup_rows_aux seen rest
    else r :: dedup_rows_aux (r.url :: seen) rest

/-- The final deduplication pass of `main` (`seen = set(); unique = []`). -/
def dedup_rows (rows : List Listing) : List Listing := dedup_rows_aux [] rows

theorem dedup_rows_aux_mem (l : List Listing) :
    ∀ seen, ∀ r ∈ dedup_rows_aux seen l, r ∈ l ∧ r.url ∉ seen := by
  induction l with
  | nil => intro seen r hr; simp [dedup_rows_aux] at hr
  | cons x rest ih =>
    intro seen r hr
    by_cases hx : x.url ∈ seen
    · simp only [dedup_rows_aux, if_pos hx] at hr
      obtain ⟨h1, h2⟩ := ih seen r hr
      exact ⟨List.mem_cons_of_mem _ h1, h2⟩
    · simp only [dedup_rows_aux, if_neg hx, List.mem_cons] at hr
      rcases hr with rfl | hr
      · exact ⟨List.mem_cons_self _ _, hx⟩
      · obtain ⟨h1, h2⟩ := ih _ r hr
        exact ⟨List.mem_cons_of_mem _ h1, fun hs => h2 (List.mem_cons_of_mem _ hs)⟩

theorem dedup_rows_aux_nodup (l : List Listing) :
    ∀ seen, ((dedup_rows_aux seen l).map Listing.url).Nodup := by
  induction l with
  | nil => intro seen; simp [dedup_rows_aux]
  | cons x rest ih =>
    intro seen
    by_cases hx : x.url ∈ seen
    · simpa only [dedup_rows_aux, if_pos hx] using ih seen
    · simp only [dedup_rows_aux, if_neg hx, List.map_cons]
      refine List.nodup_cons.mpr ⟨?_, ih _⟩
      intro hmem
      obtain ⟨r, hr, hurl⟩ := List.mem_map.mp hmem
      have h2 := (dedup_rows_aux_mem rest _ r hr).2
      exact h2 (by rw [hurl]; exact List.mem_cons_self _ _)

theorem dedup_rows_aux_fix (l : List Listing) :
    ∀ seen, (l.map Listing.url).Nodup → (∀ r ∈ l, r.url ∉ seen) →
      dedup_rows_aux seen l = l := by
  induction l with
  | nil => intro seen _ _; rfl
  | cons x rest ih =>
    intro seen hnd hni
    have hnd' : x.url ∉ rest.map Listing.url ∧ (rest.map Listing.url).Nodup := by
      rw [List.map_cons, List.nodup_cons] at hnd
      exact hnd
    have hx : x.url ∉ seen := hni x (List.mem_cons_self _ _)
    simp only [dedup_rows_aux, if_neg hx, List.cons.injEq, true_and]
    apply ih _ hnd'.2
    intro r hr hmem
    rcases List.mem_cons.mp hmem with h | h
    · exact hnd'.1 (h ▸ List.mem_map_of_mem Listing.url hr)
    · exact hni r (List.mem_cons_of_mem _ hr) h

theorem dedup_rows_aux_first (l : List Listing) :
    ∀ seen, ∀ r ∈ dedup_rows_aux seen l,
      l.find? (fun x => x.url == r.url) = some r := by
  induction l with
  | nil => intro seen r hr; simp [dedup_rows_aux] at hr
  | cons x rest ih =>
    intro seen r hr
    by_cases hx : x.url ∈ seen
    · simp only [dedup_rows_aux, if_pos hx] at hr
      have hne : (x.url == r.url) = false := by
        refine beq_eq_false_iff_ne.mpr ?_
        intro he
        exact (dedup_rows_aux_mem rest seen r hr).2 (he ▸ hx)
      simp only [List.find?, hne]
      exact ih seen r hr
    · simp only [dedup_rows_aux, if_neg hx, List.mem_cons] at hr
      rcases hr with rfl | hr
      · simp [List.find?]
      · have hne : (x.url == r.url) = false := by
          refine beq_eq_false_iff_ne.mpr ?_
          intro he
          have h2 := (dedup_rows_aux_mem rest _ r hr).2
          exact h2 (by rw [← he]; exact List.mem_cons_self _ _)
        simp only [List.find?, hne]
        exact ih _ r hr

theorem dedup_rows_aux_covers (l : List Listing) :
    ∀ seen u, u ∈ l.map Listing.url → u ∉ seen →
      ∃ r ∈ dedup_rows_aux seen l, r.url = u := by
  induction l with
  | nil => simp
  | cons x rest ih =>
    intro seen u hu hus
    rw [List.map_cons, List.mem_cons] at hu
    rcases hu with h | h
    · by_cases hx : x.url ∈ seen
      · exact absurd (h ▸ hx) hus
      · exact ⟨x, by simp [dedup_rows_aux, if_neg hx], h.symm⟩
    · by_cases hx : x.url ∈ seen
      · obtain ⟨r, hr, hru⟩ := ih seen u h hus
        exact ⟨r, by simp only [dedup_rows_aux, if_pos hx]; exact hr, hru⟩
      · by_cases hux : u = x.url
        · exact ⟨x, by simp [dedup_rows_aux, if_neg hx], hux.symm⟩
        · have hus' : u ∉ x.url :: seen := by
            intro hm
            rcases List.mem_cons.mp hm with hm | hm
            · exact hux hm
            · exact hus hm
          obtain ⟨r, hr, hru⟩ := ih (x.url :: seen) u h hus'
          refine ⟨r, ?_, hru⟩
          simp only [dedup_rows_aux, if_neg hx]
          exact List.mem_cons_of_mem _ hr

/-- **C4**: the final deduplication pass keeps, for every distinct url
value, exactly the first-seen record in input order; the output's urls are
pairwise distinct; and the pass is idempotent. -/
theorem dedup_rows_spec (l : List Listing) :
    ((dedup_rows l).map Listing.url).Nodup
    ∧ (∀ r ∈ dedup_rows l, l.find? (fun x => x.url == r.url) = some r)
    ∧ (∀ u ∈ l.map Listing.url, ∃ r ∈ dedup_rows l, r.url = u)
    ∧ dedup_rows (dedup_rows l) = dedup_rows l := by
  refine ⟨dedup_rows_aux_nodup l [], dedup_rows_aux_first l [], ?_, ?_⟩
  · intro u hu
    exact dedup_rows_aux_covers l [] u hu (by simp)
  · exact dedup_rows_aux_fix _ [] (dedup_rows_aux_nodup l []) (by simp)

/-- A concrete listing row used by closed instances below. -/
def sampleRow (t u : String) : Listing :=
  { title := str t, price := [], supplier := [], location := [], category := []
    url := str u, scraped_at := [] }

/-- Closed instance of `dedup_rows_spec` on a concrete duplicate-bearing list. -/
theorem dedup_rows_spec_witness :
    ((dedup_rows [sampleRow "a" "u1", sampleRow "b" "u1", sampleRow "c" "u2"]).map Listing.url).Nodup
    ∧ ([sampleRow "a" "u1", sampleRow "b" "u1", sampleRow "c" "u2"].find?
        (fun x => x.url == (sampleRow "a" "u1").url) = some (sampleRow "a" "u1"))
    ∧ (∃ r ∈ dedup_rows [sampleRow "a" "u1", sampleRow "b" "u1", sampleRow "c" "u2"], r.url = str "u2")
    ∧ dedup_rows (dedup_rows [sampleRow "a" "u1", sampleRow "b" "u1", sampleRow "c" "u2"])
        = dedup_rows [sampleRow "a" "u1", sampleRow "b" "u1", sampleRow "c" "u2"] :=
  ⟨(dedup_rows_spec _).1,
   (dedup_rows_spec _).2.1 _ (by decide),
   (dedup_rows_spec _).2.2.1 (str "u2") (by decide),
   (dedup_rows_spec _).2.2.2⟩

/-- **C3**: with `MAX_RETRIES = 4` and `RETRY_BACKOFF_BASE = 2`, when every
attempt fails `goto_with_retries` sleeps exactly 2, 4, 8 seconds between
consecutive attempts and then re-raises; when some attempt succeeds it
returns normally with exactly the back-off sleeps of the preceding failed
attempts and retries no further. -/
theorem goto_with_retries_backoff (fails : Nat → Bool) :
    ((∀ i, i < MAX_RETRIES → fails i = true) →
      goto_with_retries fails = NavOutcome.raised [2, 4, 8])
    ∧ (∀ k, k < MAX_RETRIES → (∀ i, i < k → fails i = true) → fails k = false →
      goto_with_retries fails =
        NavOutcome.ok ((List.range k).map (fun i => RETRY_BACKOFF_BASE ^ (i + 1)))) := by
  constructor
  · intro h
    have h0 := h 0 (by norm_num [MAX_RETRIES])
    have h1 := h 1 (by norm_num [MAX_RETRIES])
    have h2 := h 2 (by norm_num [MAX_RETRIES])
    have h3 := h 3 (by norm_num [MAX_RETRIES])
    simp [goto_with_retries, goto_loop, MAX_RETRIES, RETRY_BACKOFF_BASE, h0, h1, h2, h3]
  · intro k hk hbefore hk0
    have hk4 : k < 4 := by simpa [MAX_RETRIES] using hk
    interval_cases k
    · simp [goto_with_retries, goto_loop, MAX_RETRIES, hk0]
    · have h0 := hbefore 0 (by norm_num)
      simp [goto_with_retries, goto_loop, MAX_RETRIES, RETRY_BACKOFF_BASE, h0, hk0]
      decide
    · have h0 := hbefore 0 (by norm_num)
      have h1 := hbefore 1 (by norm_num)
      simp [goto_with_retries, goto_loop, MAX_RETRIES, RETRY_BACKOFF_BASE, h0, h1, hk0]
      decide
    · have h0 := hbefore 0 (by norm_num)
      have h1 := hbefore 1 (by norm_num)
      have h2 := hbefore 2 (by norm_num)
      simp [goto_with_retries, goto_loop, MAX_RETRIES, RETRY_BACKOFF_BASE, h0, h1, h2, hk0]
      decide

/-- Closed instance of `goto_with_retries_backoff`: all attempts failing,
and success at the third attempt. -/
theorem goto_with_retries_backoff_witness :
    goto_with_retries (fun _ => true) = NavOutcome.raised [2, 4, 8]
    ∧ goto_with_retries (fun i => decide (i < 2)) = NavOutcome.ok [2, 4] := by
  constructor
  · exact (goto_with_retries_backoff (fun _ => true)).1 (fun i _ => rfl)
  · have h := (goto_with_retries_backoff (fun i => decide (i < 2))).2 2
      (by norm_num [MAX_RETRIES]) (fun i hi => decide_eq_true hi) (by decide)
    rw [h]
    decide

/-- **C7**: on the example block text, `extract_price` returns exactly
`"₹ 1,25,000/Unit"` and `extract_location` returns exactly `"ABC Traders"`;
on any text with no match for the price pattern `extract_price` returns the
empty string, as does `extract_location` on any text not containing
`"Contact Supplier"`. -/
theorem extract_example_block :
    extract_price (str "Hydraulic Press\n₹ 1,25,000/Unit\nMumbai\nContact Supplier\nABC Traders\nMumbai, Maharashtra")
      = str "₹ 1,25,000/Unit"
    ∧ extract_location (str "Hydraulic Press\n₹ 1,25,000/Unit\nMumbai\nContact Supplier\nABC Traders\nMumbai, Maharashtra")
      = str "ABC Traders"
    ∧ (∀ t, re_search_price t = none → extract_price t = [])
    ∧ (∀ t, pyContainsSub (str "Contact Supplier") t = false → extract_location t = []) := by
  refine ⟨by decide, by decide, ?_, ?_⟩
  · intro t h
    by_cases ht : t = [] <;> simp [extract_price, ht, h]
  · intro t h
    by_cases ht : t = [] <;> simp [extract_location, ht, h]

/-- Closed instance of `extract_example_block`: no price pattern in the
empty text, no anchor phrase in `"no anchor"`. -/
theorem extract_example_block_witness :
    extract_price [] = [] ∧ extract_location (str "no anchor") = [] :=
  ⟨extract_example_block.2.2.1 [] (by decide),
   extract_example_block.2.2.2 (str "no anchor") (by decide)⟩

/-- **C10**: because the price pattern is matched with `re.IGNORECASE`, the
lowercase `rs` inside the word `offers` followed by digits is reported as a
price: `extract_price "offers 500"` is the non-empty string `"rs 500"`,
although the text contains neither `₹` nor the case-sensitive substring
`Rs`. -/
theorem extract_price_ignorecase_quirk :
    extract_price (str "offers 500") = str "rs 500"
    ∧ extract_price (str "offers 500") ≠ []
    ∧ pyContainsSub (str "₹") (str "offers 500") = false
    ∧ pyContainsSub (str "Rs") (str "offers 500") = false := by decide

theorem next_text_scan_ne_current (current : PyStr) :
    ∀ l : List NavAnchor, next_text_scan current l ≠ some current := by
  intro l
  induction l with
  | nil => simp [next_text_scan]
  | cons a rest ih =>
    unfold next_text_scan
    cases ha : a.href with
    | none => exact ih
    | some h =>
      by_cases ht : pyLower (pyStrip a.text) ∈ next_text_tokens
          ∨ pyStartsWith (pyLower (pyStrip a.text)) (str "next") = true
      · simp only [if_pos ht]
        by_cases hc : normalize_any_url h current ≠ [] ∧ normalize_any_url h current ≠ current
        · simp only [if_pos hc]
          intro he
          exact hc.2 (Option.some.inj he)
        · simp only [if_neg hc]
          exact ih
      · simp only [if_neg ht]
        exact ih

/-- The claim that the Pagination Walker never returns the current URL is
false as stated: a `rel="next"` anchor whose href equals the current URL is
returned without any self-loop check (the guard exists only in the
anchor-text scan). Concretely, on a document whose only anchor has
`rel="next"` and href equal to the current URL, `find_next_page_url`
returns the current URL rather than none. -/
theorem find_next_page_url_rel_self_loop :
    find_next_page_url [⟨some [str "next"], some (str "http://x/a"), []⟩] (str "http://x/a")
      = some (str "http://x/a") := by decide

/-- **C1** (amended): the self-loop guard applies to the anchor-text scan
only: whenever no anchor passes the `rel="next"` attribute filter, the
walker never returns a URL equal to the current URL; in particular, when
the only next-like anchor (with no rel attribute) has an href equal to the
current URL, it returns none. -/
theorem find_next_page_url_no_self (anchors : List NavAnchor) (current : PyStr)
    (h : anchors.find? rel_next_attr = none) :
    find_next_page_url anchors current ≠ some current := by
  unfold find_next_page_url
  rw [h]
  exact next_text_scan_ne_current current anchors

/-- Closed instance of `find_next_page_url_no_self`: the only next-like
anchor's href equals the current URL. -/
theorem find_next_page_url_no_self_witness :
    find_next_page_url [⟨none, some (str "http://x/a"), str "next"⟩] (str "http://x/a")
      ≠ some (str "http://x/a") :=
  find_next_page_url_no_self _ _ (by decide)

/-- **C5** (reading the clauses as the sequential case list of the spec's
contract): `looks_like_supplier_url` is false for every URL whose host does
not end with `indiamart.com`, false for every URL with an empty path, false
whenever the first path segment is one of the reserved segments
(`proddetail`, `impcat`, `search`), true whenever (the host suffix check
passing) the first path segment is `company`, and otherwise true exactly
when the stripped path consists of a single segment. -/
theorem looks_like_supplier_url_spec (url : PyStr) :
    (pyEndsWith (pyLower (urlparse url).netloc) (str "indiamart.com") = false →
      looks_like_supplier_url url = false)
    ∧ ((urlparse url).path = [] → looks_like_supplier_url url = false)
    ∧ (∀ seg ∈ [str "proddetail", str "impcat", str "search"],
        (pyLower (pyStripChar '/' (urlparse url).path)).takeWhile (fun c => !(c = '/')) = seg →
        looks_like_supplier_url url = false)
    ∧ (pyEndsWith (pyLower (urlparse url).netloc) (str "indiamart.com") = true →
        (pyLower (pyStripChar '/' (urlparse url).path)).takeWhile (fun c => !(c = '/')) = str "company" →
        looks_like_supplier_url url = true)
    ∧ (pyEndsWith (pyLower (urlparse url).netloc) (str "indiamart.com") = true →
        pyLower (pyStripChar '/' (urlparse url).path) ≠ [] →
        (pyLower (pyStripChar '/' (urlparse url).path)).takeWhile (fun c => !(c = '/')) ∉
          [str "proddetail", str "impcat", str "search", str "company"] →
        (looks_like_supplier_url url = true ↔
          (List.splitOn '/' (pyLower (pyStripChar '/' (urlparse url).path))).length = 1)) := by
  refine ⟨?_, ?_, ?_, ?_, ?_⟩
  · intro h
    simp [looks_like_supplier_url, h]
  · intro h
    simp [looks_like_supplier_url, h, pyStripChar, pyLower]
  · intro seg hseg hfirst
    fin_cases hseg <;> simp [looks_like_supplier_url, hfirst]
  · intro hhost hfirst
    have hpath : pyLower (pyStripChar '/' (urlparse url).path) ≠ [] := by
      intro h0
      rw [h0] at hfirst
      exact absurd hfirst (by decide)
    simp [looks_like_supplier_url, hhost, hpath, hfirst]
    decide
  · intro hhost hpath hres
    simp only [List.mem_cons, List.mem_singleton, not_or] at hres
    obtain ⟨h1, h2, h3, h4⟩ := hres
    simp [looks_like_supplier_url, hhost, hpath, h1, h2, h3, h4]

/-- Closed instances of `looks_like_supplier_url_spec` on the five clause
shapes. -/
theorem looks_like_supplier_url_spec_witness :
    looks_like_supplier_url (str "https://evil.com/company/x") = false
    ∧ looks_like_supplier_url (str "https://www.indiamart.com") = false
    ∧ looks_like_supplier_url (str "https://www.indiamart.com/search/x") = false
    ∧ looks_like_supplier_url (str "https://www.indiamart.com/company/abc") = true
    ∧ (looks_like_supplier_url (str "https://www.indiamart.com/abc-traders/") = true ↔
        (List.splitOn '/' (pyLower (pyStripChar '/'
          (urlparse (str "https://www.indiamart.com/abc-traders/")).path))).length = 1) :=
  ⟨(looks_like_supplier_url_spec _).1 (by decide),
   (looks_like_supplier_url_spec _).2.1 (by decide),
   (looks_like_supplier_url_spec _).2.2.1 (str "search") (by decide) (by decide),
   (looks_like_supplier_url_spec _).2.2.2.1 (by decide) (by decide),
   (looks_like_supplier_url_spec _).2.2.2.2 (by decide) (by decide) (by decide)⟩


theorem takeWhile_append_all (p : Char → Bool) (a : List Char) :
    ∀ b, (∀ c ∈ a, p c = true) →
      List.takeWhile p (a ++ b) = a ++ List.takeWhile p b := by
  induction a with
  | nil => intro b _; rfl
  | cons x xs ih =>
    intro b h
    have hx : p x = true := h x (List.mem_cons_self _ _)
    simp only [List.cons_append, List.takeWhile_cons, hx, if_true]
    rw [ih b (fun c hc => h c (List.mem_cons_of_mem _ hc))]

theorem dropWhile_append_split (p : Char → Bool) (a : List Char) :
    ∀ b, List.dropWhile p (a ++ b) =
      if List.dropWhile p a = [] then List.dropWhile p b
      else List.dropWhile p a ++ b := by
  induction a with
  | nil => intro b; simp
  | cons x xs ih =>
    intro b
    by_cases hx : p x = true
    · simp [List.dropWhile, hx, ih b]
    · simp [List.dropWhile, hx]

theorem pyStartsWith_exists (p : PyStr) :
    ∀ s, pyStartsWith s p = true → ∃ t, s = p ++ t := by
  induction p with
  | nil => intro s _; exact ⟨s, rfl⟩
  | cons d ps ih =>
    intro s h
    cases s with
    | nil => simp [pyStartsWith] at h
    | cons c s' =>
      simp only [pyStartsWith] at h
      by_cases hcd : c = d
      · rw [if_pos hcd] at h
        obtain ⟨t, ht⟩ := ih s' h
        exact ⟨t, by rw [hcd, ht]; rfl⟩
      · rw [if_neg hcd] at h
        exact absurd h (by simp)

theorem pyStrip_keeps_head (p : PyStr) (t : PyStr)
    (h1 : List.dropWhile pyIsSpace p = p)
    (h2 : List.dropWhile pyIsSpace p.reverse = p.reverse)
    (hp : p ≠ []) :
    ∃ t', pyStrip (p ++ t) = p ++ t' := by
  unfold pyStrip pyLStrip pyRStrip
  rw [dropWhile_append_split _ p t, h1, if_neg hp]
  rw [List.reverse_append]
  rw [dropWhile_append_split _ t.reverse p.reverse]
  by_cases ht : List.dropWhile pyIsSpace t.reverse = []
  · rw [if_pos ht, h2, List.reverse_reverse]
    exact ⟨[], by rw [List.append_nil]⟩
  · rw [if_neg ht, List.reverse_append, List.reverse_reverse]
    exact ⟨(List.dropWhile pyIsSpace t.reverse).reverse, rfl⟩

theorem urlparse_dir_netloc (rest : PyStr) :
    (urlparse (str "https://dir.indiamart.com" ++ '/' :: rest)).netloc
      = str "dir.indiamart.com" := by
  simp [urlparse, splitOnceChar, parseRest, pyStartsWith, str, pyLower, isSchemeChar,
    List.takeWhile, urlNoDelim, List.dropWhile, urlPathChar]

theorem urlparse_www_netloc (rest : PyStr) :
    (urlparse (str "https://www.indiamart.com" ++ '/' :: rest)).netloc
      = str "www.indiamart.com" := by
  simp [urlparse, splitOnceChar, parseRest, pyStartsWith, str, pyLower, isSchemeChar,
    List.takeWhile, urlNoDelim, List.dropWhile, urlPathChar]

theorem normalize_netloc_impcat_slash (href : PyStr) (pu : Option PyStr)
    (h : pyStartsWith href (str "/impcat/") = true) :
    (urlparse (normalize_indiamart_url href pu)).netloc = str "dir.indiamart.com" := by
  obtain ⟨t, rfl⟩ := pyStartsWith_exists _ _ h
  obtain ⟨t1, e1⟩ := pyStrip_keeps_head (str "/impcat/") t (by decide) (by decide) (by decide)
  obtain ⟨t2, e2⟩ := pyStrip_keeps_head (str "/impcat/") t1 (by decide) (by decide) (by decide)
  have hne : (str "/impcat/" : PyStr) ++ t ≠ [] := by simp [str]
  have hne1 : (str "/impcat/" : PyStr) ++ t1 ≠ [] := by simp [str]
  have hne2 : (str "/impcat/" : PyStr) ++ t2 ≠ [] := by simp [str]
  have hbp : urlparse (str "https://dir.indiamart.com/")
      = ⟨str "https", str "dir.indiamart.com", str "/"⟩ := by decide
  have c1 : pyStartsWith ((str "/impcat/" : PyStr) ++ t1) (str "//") = false := by
    simp [str, pyStartsWith]
  have c2 : pyStartsWith ((str "/impcat/" : PyStr) ++ t1) (str "http") = false := by
    simp [str, pyStartsWith]
  have c3 : pyStartsWith ((str "/impcat/" : PyStr) ++ t1) (str "/impcat/") = true := by
    simp [str, pyStartsWith]
  have d1 : pyStartsWith ((str "/impcat/" : PyStr) ++ t2) (str "//") = false := by
    simp [str, pyStartsWith]
  have d2 : pyStartsWith ((str "/impcat/" : PyStr) ++ t2) (str "http") = false := by
    simp [str, pyStartsWith]
  have d3 : pyStartsWith ((str "/impcat/" : PyStr) ++ t2) (str "/") = true := by
    simp [str, pyStartsWith]
  unfold normalize_indiamart_url
  rw [if_neg hne]
  simp only [e1, c1, c2, c3, Bool.false_or, Bool.true_or, Bool.or_self,
    Bool.false_eq_true, if_false, if_true, ite_false, ite_true]
  unfold normalize_any_url
  rw [if_neg hne1]
  simp only [e2, d1, d2, Bool.false_eq_true, ite_false]
  unfold pyUrljoin
  rw [if_neg hne2]
  simp only [hbp, d1, d3, Bool.false_eq_true, ite_false, ite_true]
  simpa [str] using urlparse_dir_netloc ('i' :: 'm' :: 'p' :: 'c' :: 'a' :: 't' :: '/' :: t2)
theorem normalize_netloc_impcat_bare (href : PyStr) (pu : Option PyStr)
    (h : pyStartsWith href (str "impcat/") = true) :
    (urlparse (normalize_indiamart_url href pu)).netloc = str "dir.indiamart.com" := by
  obtain ⟨t, rfl⟩ := pyStartsWith_exists _ _ h
  obtain ⟨t1, e1⟩ := pyStrip_keeps_head (str "impcat/") t (by decide) (by decide) (by decide)
  obtain ⟨t2, e2⟩ := pyStrip_keeps_head (str "impcat/") t1 (by decide) (by decide) (by decide)
  have hne : (str "impcat/" : PyStr) ++ t ≠ [] := by simp [str]
  have hne1 : (str "impcat/" : PyStr) ++ t1 ≠ [] := by simp [str]
  have hne2 : (str "impcat/" : PyStr) ++ t2 ≠ [] := by simp [str]
  have hbp : urlparse (str "https://dir.indiamart.com/")
      = ⟨str "https", str "dir.indiamart.com", str "/"⟩ := by decide
  have hdir : pyDirname (str "/") = str "/" := by decide
  have c1 : pyStartsWith ((str "impcat/" : PyStr) ++ t1) (str "//") = false := by
    simp [str, pyStartsWith]
  have c2 : pyStartsWith ((str "impcat/" : PyStr) ++ t1) (str "http") = false := by
    simp [str, pyStartsWith]
  have c3 : pyStartsWith ((str "impcat/" : PyStr) ++ t1) (str "/impcat/") = false := by
    simp [str, pyStartsWith]
  have c4 : pyStartsWith ((str "impcat/" : PyStr) ++ t1) (str "impcat/") = true := by
    simp [str, pyStartsWith]
  have d1 : pyStartsWith ((str "impcat/" : PyStr) ++ t2) (str "//") = false := by
    simp [str, pyStartsWith]
  have d2 : pyStartsWith ((str "impcat/" : PyStr) ++ t2) (str "http") = false := by
    simp [str, pyStartsWith]
  have d3 : pyStartsWith ((str "impcat/" : PyStr) ++ t2) (str "/") = false := by
    simp [str, pyStartsWith]
  unfold normalize_indiamart_url
  rw [if_neg hne]
  simp only [e1, c1, c2, c3, c4, Bool.false_or, Bool.true_or, Bool.or_self,
    Bool.false_eq_true, if_false, if_true, ite_false, ite_true]
  unfold normalize_any_url
  rw [if_neg hne1]
  simp only [e2, d1, d2, Bool.false_eq_true, ite_false]
  unfold pyUrljoin
  rw [if_neg hne2]
  simp only [hbp, d1, d3, hdir, Bool.false_eq_true, ite_false, ite_true]
  simpa [str] using urlparse_dir_netloc ('i' :: 'm' :: 'p' :: 'c' :: 'a' :: 't' :: '/' :: t2)
theorem normalize_netloc_proddetail_slash (href : PyStr) (pu : Option PyStr)
    (h : pyStartsWith href (str "/proddetail/") = true) :
    (urlparse (normalize_indiamart_url href pu)).netloc = str "www.indiamart.com" := by
  obtain ⟨t, rfl⟩ := pyStartsWith_exists _ _ h
  obtain ⟨t1, e1⟩ := pyStrip_keeps_head (str "/proddetail/") t (by decide) (by decide) (by decide)
  obtain ⟨t2, e2⟩ := pyStrip_keeps_head (str "/proddetail/") t1 (by decide) (by decide) (by decide)
  have hne : (str "/proddetail/" : PyStr) ++ t ≠ [] := by simp [str]
  have hne1 : (str "/proddetail/" : PyStr) ++ t1 ≠ [] := by simp [str]
  have hne2 : (str "/proddetail/" : PyStr) ++ t2 ≠ [] := by simp [str]
  have hbp : urlparse (str "https://www.indiamart.com/")
      = ⟨str "https", str "www.indiamart.com", str "/"⟩ := by decide
  have c1 : pyStartsWith ((str "/proddetail/" : PyStr) ++ t1) (str "//") = false := by
    simp [str, pyStartsWith]
  have c2 : pyStartsWith ((str "/proddetail/" : PyStr) ++ t1) (str "http") = false := by
    simp [str, pyStartsWith]
  have c3 : pyStartsWith ((str "/proddetail/" : PyStr) ++ t1) (str "/impcat/") = false := by
    simp [str, pyStartsWith]
  have c4 : pyStartsWith ((str "/proddetail/" : PyStr) ++ t1) (str "impcat/") = false := by
    simp [str, pyStartsWith]
  have c5 : pyStartsWith ((str "/proddetail/" : PyStr) ++ t1) (str "/proddetail/") = true := by
    simp [str, pyStartsWith]
  have d1 : pyStartsWith ((str "/proddetail/" : PyStr) ++ t2) (str "//") = false := by
    simp [str, pyStartsWith]
  have d2 : pyStartsWith ((str "/proddetail/" : PyStr) ++ t2) (str "http") = false := by
    simp [str, pyStartsWith]
  have d3 : pyStartsWith ((str "/proddetail/" : PyStr) ++ t2) (str "/") = true := by
    simp [str, pyStartsWith]
  unfold normalize_indiamart_url
  rw [if_neg hne]
  simp only [e1, c1, c2, c3, c4, c5, Bool.false_or, Bool.true_or, Bool.or_self,
    Bool.false_eq_true, if_false, if_true, ite_false, ite_true]
  unfold normalize_any_url
  rw [if_neg hne1]
  simp only [e2, d1, d2, Bool.false_eq_true, ite_false]
  unfold pyUrljoin
  rw [if_neg hne2]
  simp only [hbp, d1, d3, Bool.false_eq_true, ite_false, ite_true]
  simpa [str] using urlparse_www_netloc ('p' :: 'r' :: 'o' :: 'd' :: 'd' :: 'e' :: 't' :: 'a' :: 'i' :: 'l' :: '/' :: t2)
theorem normalize_netloc_proddetail_bare (href : PyStr) (pu : Option PyStr)
    (h : pyStartsWith href (str "proddetail/") = true) :
    (urlparse (normalize_indiamart_url href pu)).netloc = str "www.indiamart.com" := by
  obtain ⟨t, rfl⟩ := pyStartsWith_exists _ _ h
  obtain ⟨t1, e1⟩ := pyStrip_keeps_head (str "proddetail/") t (by decide) (by decide) (by decide)
  obtain ⟨t2, e2⟩ := pyStrip_keeps_head (str "proddetail/") t1 (by decide) (by decide) (by decide)
  have hne : (str "proddetail/" : PyStr) ++ t ≠ [] := by simp [str]
  have hne1 : (str "proddetail/" : PyStr) ++ t1 ≠ [] := by simp [str]
  have hne2 : (str "proddetail/" : PyStr) ++ t2 ≠ [] := by simp [str]
  have hbp : urlparse (str "https://www.indiamart.com/")
      = ⟨str "https", str "www.indiamart.com", str "/"⟩ := by decide
  have hdir : pyDirname (str "/") = str "/" := by decide
  have c1 : pyStartsWith ((str "proddetail/" : PyStr) ++ t1) (str "//") = false := by
    simp [str, pyStartsWith]
  have c2 : pyStartsWith ((str "proddetail/" : PyStr) ++ t1) (str "http") = false := by
    simp [str, pyStartsWith]
  have c3 : pyStartsWith ((str "proddetail/" : PyStr) ++ t1) (str "/impcat/") = false := by
    simp [str, pyStartsWith]
  have c4 : pyStartsWith ((str "proddetail/" : PyStr) ++ t1) (str "impcat/") = false := by
    simp [str, pyStartsWith]
  have c5 : pyStartsWith ((str "proddetail/" : PyStr) ++ t1) (str "/proddetail/") = false := by
    simp [str, pyStartsWith]
  have c6 : pyStartsWith ((str "proddetail/" : PyStr) ++ t1) (str "proddetail/") = true := by
    simp [str, pyStartsWith]
  have d1 : pyStartsWith ((str "proddetail/" : PyStr) ++ t2) (str "//") = false := by
    simp [str, pyStartsWith]
  have d2 : pyStartsWith ((str "proddetail/" : PyStr) ++ t2) (str "http") = false := by
    simp [str, pyStartsWith]
  have d3 : pyStartsWith ((str "proddetail/" : PyStr) ++ t2) (str "/") = false := by
    simp [str, pyStartsWith]
  unfold normalize_indiamart_url
  rw [if_neg hne]
  simp only [e1, c1, c2, c3, c4, c5, c6, Bool.false_or, Bool.true_or, Bool.or_self,
    Bool.false_eq_true, if_false, if_true, ite_false, ite_true]
  unfold normalize_any_url
  rw [if_neg hne1]
  simp only [e2, d1, d2, Bool.false_eq_true, ite_false]
  unfold pyUrljoin
  rw [if_neg hne2]
  simp only [hbp, d1, d3, hdir, Bool.false_eq_true, ite_false, ite_true]
  simpa [str] using urlparse_www_netloc ('p' :: 'r' :: 'o' :: 'd' :: 'd' :: 'e' :: 't' :: 'a' :: 'i' :: 'l' :: '/' :: t2)
theorem normalize_netloc_company_slash (href : PyStr) (pu : Option PyStr)
    (h : pyStartsWith href (str "/company/") = true) :
    (urlparse (normalize_indiamart_url href pu)).netloc = str "www.indiamart.com" := by
  obtain ⟨t, rfl⟩ := pyStartsWith_exists _ _ h
  obtain ⟨t1, e1⟩ := pyStrip_keeps_head (str "/company/") t (by decide) (by decide) (by decide)
  obtain ⟨t2, e2⟩ := pyStrip_keeps_head (str "/company/") t1 (by decide) (by decide) (by decide)
  have hne : (str "/company/" : PyStr) ++ t ≠ [] := by simp [str]
  have hne1 : (str "/company/" : PyStr) ++ t1 ≠ [] := by simp [str]
  have hne2 : (str "/company/" : PyStr) ++ t2 ≠ [] := by simp [str]
  have hbp : urlparse (str "https://www.indiamart.com/")
      = ⟨str "https", str "www.indiamart.com", str "/"⟩ := by decide
  have c1 : pyStartsWith ((str "/company/" : PyStr) ++ t1) (str "//") = false := by
    simp [str, pyStartsWith]
  have c2 : pyStartsWith ((str "/company/" : PyStr) ++ t1) (str "http") = false := by
    simp [str, pyStartsWith]
  have c3 : pyStartsWith ((str "/company/" : PyStr) ++ t1) (str "/impcat/") = false := by
    simp [str, pyStartsWith]
  have c4 : pyStartsWith ((str "/company/" : PyStr) ++ t1) (str "impcat/") = false := by
    simp [str, pyStartsWith]
  have c5 : pyStartsWith ((str "/company/" : PyStr) ++ t1) (str "/proddetail/") = false := by
    simp [str, pyStartsWith]
  have c6 : pyStartsWith ((str "/company/" : PyStr) ++ t1) (str "proddetail/") = false := by
    simp [str, pyStartsWith]
  have c7 : pyStartsWith ((str "/company/" : PyStr) ++ t1) (str "/company/") = true := by
    simp [str, pyStartsWith]
  have d1 : pyStartsWith ((str "/company/" : PyStr) ++ t2) (str "//") = false := by
    simp [str, pyStartsWith]
  have d2 : pyStartsWith ((str "/company/" : PyStr) ++ t2) (str "http") = false := by
    simp [str, pyStartsWith]
  have d3 : pyStartsWith ((str "/company/" : PyStr) ++ t2) (str "/") = true := by
    simp [str, pyStartsWith]
  unfold normalize_indiamart_url
  rw [if_neg hne]
  simp only [e1, c1, c2, c3, c4, c5, c6, c7, Bool.false_or, Bool.true_or, Bool.or_self,
    Bool.false_eq_true, if_false, if_true, ite_false, ite_true]
  unfold normalize_any_url
  rw [if_neg hne1]
  simp only [e2, d1, d2, Bool.false_eq_true, ite_false]
  unfold pyUrljoin
  rw [if_neg hne2]
  simp only [hbp, d1, d3, Bool.false_eq_true, ite_false, ite_true]
  simpa [str] using urlparse_www_netloc ('c' :: 'o' :: 'm' :: 'p' :: 'a' :: 'n' :: 'y' :: '/' :: t2)
theorem normalize_netloc_company_bare (href : PyStr) (pu : Option PyStr)
    (h : pyStartsWith href (str "company/") = true) :
    (urlparse (normalize_indiamart_url href pu)).netloc = str "www.indiamart.com" := by
  obtain ⟨t, rfl⟩ := pyStartsWith_exists _ _ h
  obtain ⟨t1, e1⟩ := pyStrip_keeps_head (str "company/") t (by decide) (by decide) (by decide)
  obtain ⟨t2, e2⟩ := pyStrip_keeps_head (str "company/") t1 (by decide) (by decide) (by decide)
  have hne : (str "company/" : PyStr) ++ t ≠ [] := by simp [str]
  have hne1 : (str "company/" : PyStr) ++ t1 ≠ [] := by simp [str]
  have hne2 : (str "company/" : PyStr) ++ t2 ≠ [] := by simp [str]
  have hbp : urlparse (str "https://www.indiamart.com/")
      = ⟨str "https", str "www.indiamart.com", str "/"⟩ := by decide
  have hdir : pyDirname (str "/") = str "/" := by decide
  have c1 : pyStartsWith ((str "company/" : PyStr) ++ t1) (str "//") = false := by
    simp [str, pyStartsWith]
  have c2 : pyStartsWith ((str "company/" : PyStr) ++ t1) (str "http") = false := by
    simp [str, pyStartsWith]
  have c3 : pyStartsWith ((str "company/" : PyStr) ++ t1) (str "/impcat/") = false := by
    simp [str, pyStartsWith]
  have c4 : pyStartsWith ((str "company/" : PyStr) ++ t1) (str "impcat/") = false := by
    simp [str, pyStartsWith]
  have c5 : pyStartsWith ((str "company/" : PyStr) ++ t1) (str "/proddetail/") = false := by
    simp [str, pyStartsWith]
  have c6 : pyStartsWith ((str "company/" : PyStr) ++ t1) (str "proddetail/") = false := by
    simp [str, pyStartsWith]
  have c7 : pyStartsWith ((str "company/" : PyStr) ++ t1) (str "/company/") = false := by
    simp [str, pyStartsWith]
  have c8 : pyStartsWith ((str "company/" : PyStr) ++ t1) (str "company/") = true := by
    simp [str, pyStartsWith]
  have d1 : pyStartsWith ((str "company/" : PyStr) ++ t2) (str "//") = false := by
    simp [str, pyStartsWith]
  have d2 : pyStartsWith ((str "company/" : PyStr) ++ t2) (str "http") = false := by
    simp [str, pyStartsWith]
  have d3 : pyStartsWith ((str "company/" : PyStr) ++ t2) (str "/") = false := by
    simp [str, pyStartsWith]
  unfold normalize_indiamart_url
  rw [if_neg hne]
  simp only [e1, c1, c2, c3, c4, c5, c6, c7, c8, Bool.false_or, Bool.true_or, Bool.or_self,
    Bool.false_eq_true, if_false, if_true, ite_false, ite_true]
  unfold normalize_any_url
  rw [if_neg hne1]
  simp only [e2, d1, d2, Bool.false_eq_true, ite_false]
  unfold pyUrljoin
  rw [if_neg hne2]
  simp only [hbp, d1, d3, hdir, Bool.false_eq_true, ite_false, ite_true]
  simpa [str] using urlparse_www_netloc ('c' :: 'o' :: 'm' :: 'p' :: 'a' :: 'n' :: 'y' :: '/' :: t2)

/-- **C6**: `normalize_indiamart_url` maps every href beginning with the
category-path prefix (`/impcat/` or `impcat/`) to an absolute URL whose
host is the category host `dir.indiamart.com`, and every href beginning
with the product-detail prefix (`/proddetail/` or `proddetail/`) or the
profile prefix (`/company/` or `company/`) to an absolute URL whose host
is the catalog host `www.indiamart.com`. -/
theorem normalize_indiamart_url_hosts (href : PyStr) (pu : Option PyStr) :
    ((pyStartsWith href (str "/impcat/") = true ∨ pyStartsWith href (str "impcat/") = true) →
      (urlparse (normalize_indiamart_url href pu)).netloc = str "dir.indiamart.com")
    ∧ ((pyStartsWith href (str "/proddetail/") = true
        ∨ pyStartsWith href (str "proddetail/") = true
        ∨ pyStartsWith href (str "/company/") = true
        ∨ pyStartsWith href (str "company/") = true) →
      (urlparse (normalize_indiamart_url href pu)).netloc = str "www.indiamart.com") := by
  constructor
  · rintro (h | h)
    · exact normalize_netloc_impcat_slash href pu h
    · exact normalize_netloc_impcat_bare href pu h
  · rintro (h | h | h | h)
    · exact normalize_netloc_proddetail_slash href pu h
    · exact normalize_netloc_proddetail_bare href pu h
    · exact normalize_netloc_company_slash href pu h
    · exact normalize_netloc_company_bare href pu h

/-- Closed instances of `normalize_indiamart_url_hosts` for a category href
and a profile href. -/
theorem normalize_indiamart_url_hosts_witness :
    (urlparse (normalize_indiamart_url (str "/impcat/machines.html") none)).netloc
      = str "dir.indiamart.com"
    ∧ (urlparse (normalize_indiamart_url (str "company/abc")
        (some (str "https://dir.indiamart.com/impcat/a.html")))).netloc
      = str "www.indiamart.com" :=
  ⟨(normalize_indiamart_url_hosts _ _).1 (Or.inl (by decide)),
   (normalize_indiamart_url_hosts _ _).2 (Or.inr (Or.inr (Or.inr (by decide))))⟩


theorem scrape_pages_trace_fresh (fetch : PyStr → Page) (cat : PyStr) (mL : Option Int) :
    ∀ n cur seen rows,
      (∀ u ∈ (scrape_pages fetch cat mL n cur seen rows).2, u ∉ seen)
      ∧ (scrape_pages fetch cat mL n cur seen rows).2.Nodup := by
  intro n
  induction n with
  | zero => intro cur seen rows; simp [scrape_pages]
  | succ n ih =>
    intro cur seen rows
    unfold scrape_pages
    by_cases hc : cur = [] ∨ cur ∈ seen
    · simp [hc]
    · rw [if_neg hc]
      obtain ⟨hc1, hc2⟩ := not_or.mp hc
      cases hsi : scrape_items cat cur mL (fetch cur).items rows with
      | mk rows' stopped =>
        cases stopped with
        | true =>
          simp only [hsi]
          constructor
          · intro u hu
            rw [List.mem_singleton.mp hu]
            exact hc2
          · exact List.nodup_singleton cur
        | false =>
          simp only [hsi]
          obtain ⟨ihf, ihn⟩ :=
            ih ((find_next_page_url (fetch cur).nav cur).getD []) (cur :: seen) rows'
          constructor
          · intro u hu
            rcases List.mem_cons.mp hu with rfl | hu
            · exact hc2
            · intro hus
              exact ihf u hu (List.mem_cons_of_mem _ hus)
          · refine List.nodup_cons.mpr ⟨?_, ihn⟩
            intro hcur
            exact ihf cur hcur (List.mem_cons_self _ _)

/-- **C8**: within one category traversal, no page URL is ever navigated
twice: the navigation trace of `scrape_category` (the URLs passed to the
navigator, in order) has no duplicates, even when the Pagination Walker
returns a previously visited URL. -/
theorem scrape_category_no_revisit (fetch : PyStr → Page) (category_name url : PyStr)
    (max_listings : Option Int) (max_pages : Nat) :
    (scrape_category fetch category_name url max_listings max_pages).2.Nodup :=
  (scrape_pages_trace_fresh fetch category_name max_listings max_pages url [] []).2

/-- A concrete product-link candidate with no usable ancestor context. -/
def demoItem (h t : String) : ProdItem := ⟨⟨str h, str t⟩, []⟩

/-- A first-category page with seven valid product links and a next link. -/
def pageA : Page :=
  { items :=
      [demoItem "https://www.indiamart.com/proddetail/p1" "item one",
       demoItem "https://www.indiamart.com/proddetail/p2" "item two",
       demoItem "https://www.indiamart.com/proddetail/p3" "item three",
       demoItem "https://www.indiamart.com/proddetail/p4" "item four",
       demoItem "https://www.indiamart.com/proddetail/p5" "item five",
       demoItem "https://www.indiamart.com/proddetail/p6" "item six",
       demoItem "https://www.indiamart.com/proddetail/p7" "item seven"]
    nav := [⟨none, some (str "/impcat/machines-2.html"), str "Next"⟩] }

/-- An empty page (used for every URL other than category A's first page). -/
def pageEmpty : Page := { items := [], nav := [] }

/-- The page model for the cap example: category A's first page holds the
seven listings; every other URL renders empty. -/
def demoFetch (u : PyStr) : Page :=
  if u = str "https://dir.indiamart.com/impcat/machines.html" then pageA else pageEmpty

/-- The two categories of the cap example. -/
def demoCats : List (PyStr × PyStr) :=
  [(str "Industrial Machinery", str "https://dir.indiamart.com/impcat/machines.html"),
   (str "Electronics", str "https://dir.indiamart.com/impcat/electronics.html")]

/-- **C2**: with a collection cap of 5 across two categories whose first
category yields 7 raw listings (as witnessed by the uncapped run),
`scrape_category` returns as soon as 5 rows are collected — short-circuiting
the remaining cards and pages — and the second category is never navigated:
the only URL ever fetched is category A's first page. -/
theorem run_categories_cap_example :
    (run_categories demoFetch 3 (str "2026-10-12 00:00:00") none demoCats).1.length = 7
    ∧ (run_categories demoFetch 3 (str "2026-10-12 00:00:00") (some 5) demoCats).1.length = 5
    ∧ (run_categories demoFetch 3 (str "2026-10-12 00:00:00") (some 5) demoCats).2
        = [str "https://dir.indiamart.com/impcat/machines.html"] := by decide

theorem scrape_items_mem (cat cur : PyStr) (mL : Option Int) :
    ∀ items rows r, r ∈ (scrape_items cat cur mL items rows).1 →
      r ∈ rows ∨ ∃ it ∈ items, process_item cat cur it = some r := by
  intro items
  induction items with
  | nil =>
    intro rows r hr
    exact Or.inl (by simpa [scrape_items] using hr)
  | cons it rest ih =>
    intro rows r hr
    unfold scrape_items at hr
    cases hpi : process_item cat cur it with
    | none =>
      rw [hpi] at hr
      rcases ih rows r hr with h | ⟨it', hit', hp⟩
      · exact Or.inl h
      · exact Or.inr ⟨it', List.mem_cons_of_mem _ hit', hp⟩
    | some x =>
      rw [hpi] at hr
      simp only [] at hr
      by_cases hcap : cap_reached mL (rows ++ [x]).length = true
      · rw [if_pos hcap] at hr
        rcases List.mem_append.mp hr with h | h
        · exact Or.inl h
        · rw [List.mem_singleton.mp h]
          exact Or.inr ⟨it, List.mem_cons_self _ _, hpi⟩
      · rw [if_neg hcap] at hr
        rcases ih (rows ++ [x]) r hr with h | ⟨it', hit', hp⟩
        · rcases List.mem_append.mp h with h' | h'
          · exact Or.inl h'
          · rw [List.mem_singleton.mp h']
            exact Or.inr ⟨it, List.mem_cons_self _ _, hpi⟩
        · exact Or.inr ⟨it', List.mem_cons_of_mem _ hit', hp⟩

theorem scrape_pages_mem (fetch : PyStr → Page) (cat : PyStr) (mL : Option Int) :
    ∀ n cur seen rows r, r ∈ (scrape_pages fetch cat mL n cur seen rows).1 →
      r ∈ rows ∨ ∃ cur' it, process_item cat cur' it = some r := by
  intro n
  induction n with
  | zero =>
    intro cur seen rows r hr
    exact Or.inl (by simpa [scrape_pages] using hr)
  | succ n ih =>
    intro cur seen rows r hr
    unfold scrape_pages at hr
    by_cases hc : cur = [] ∨ cur ∈ seen
    · rw [if_pos hc] at hr
      exact Or.inl hr
    · rw [if_neg hc] at hr
      cases hsi : scrape_items cat cur mL (fetch cur).items rows with
      | mk rows' stopped =>
        have hrows' : rows' = (scrape_items cat cur mL (fetch cur).items rows).1 := by
          rw [hsi]
        cases stopped with
        | true =>
          simp only [hsi] at hr
          rcases scrape_items_mem cat cur mL (fetch cur).items rows r (hrows' ▸ hr) with h | ⟨it, _, hp⟩
          · exact Or.inl h
          · exact Or.inr ⟨cur, it, hp⟩
        | false =>
          simp only [hsi] at hr
          rcases ih ((find_next_page_url (fetch cur).nav cur).getD [])
              (cur :: seen) rows' r hr with h | h
          · rcases scrape_items_mem cat cur mL (fetch cur).items rows r (hrows' ▸ h) with h' | ⟨it, _, hp⟩
            · exact Or.inl h'
            · exact Or.inr ⟨cur, it, hp⟩
          · exact Or.inr h

theorem scrape_category_mem (fetch : PyStr → Page) (cat url : PyStr)
    (mL : Option Int) (mP : Nat) (r : Listing)
    (hr : r ∈ (scrape_category fetch cat url mL mP).1) :
    ∃ cur it, process_item cat cur it = some r := by
  rcases scrape_pages_mem fetch cat mL mP url [] [] r hr with h | h
  · exact absurd h (List.not_mem_nil r)
  · exact h

theorem supplier_from_spec (href title cur : PyStr) :
    ∀ ls s, supplier_from href title cur ls = s → s ≠ [] →
      ∃ sl ∈ ls,
        normalize_indiamart_url sl.href (some cur) ≠ []
        ∧ normalize_indiamart_url sl.href (some cur) ≠ href
        ∧ pyContainsSub (str "/proddetail/") (normalize_indiamart_url sl.href (some cur)) = false
        ∧ looks_like_supplier_url (normalize_indiamart_url sl.href (some cur)) = true
        ∧ pyStrip sl.text ≠ []
        ∧ pyStrip sl.text ≠ title
        ∧ s = (pyStrip sl.text).take 200 := by
  intro ls
  induction ls with
  | nil =>
    intro s hs hne
    rw [supplier_from] at hs
    exact absurd hs.symm hne
  | cons sl rest ih =>
    intro s hs hne
    unfold supplier_from at hs
    by_cases h1 : normalize_indiamart_url sl.href (some cur) = []
        ∨ normalize_indiamart_url sl.href (some cur) = href
    · rw [if_pos h1] at hs
      obtain ⟨sl', hmem, hrest⟩ := ih s hs hne
      exact ⟨sl', List.mem_cons_of_mem _ hmem, hrest⟩
    · rw [if_neg h1] at hs
      obtain ⟨h1a, h1b⟩ := not_or.mp h1
      by_cases h2 : pyContainsSub (str "/proddetail/") (normalize_indiamart_url sl.href (some cur)) = true
      · rw [if_pos h2] at hs
        obtain ⟨sl', hmem, hrest⟩ := ih s hs hne
        exact ⟨sl', List.mem_cons_of_mem _ hmem, hrest⟩
      · rw [if_neg h2] at hs
        by_cases h3 : looks_like_supplier_url (normalize_indiamart_url sl.href (some cur)) = true
        · rw [if_neg (by simp [h3])] at hs
          by_cases h4 : pyStrip sl.text = [] ∨ pyStrip sl.text = title
          · rw [if_pos h4] at hs
            obtain ⟨sl', hmem, hrest⟩ := ih s hs hne
            exact ⟨sl', List.mem_cons_of_mem _ hmem, hrest⟩
          · rw [if_neg h4] at hs
            obtain ⟨h4a, h4b⟩ := not_or.mp h4
            exact ⟨sl, List.mem_cons_self _ _, h1a, h1b,
              Bool.not_eq_true _ ▸ (by simpa using h2), h3, h4a, h4b, hs.symm⟩
        · rw [if_pos (by simp [h3])] at hs
          obtain ⟨sl', hmem, hrest⟩ := ih s hs hne
          exact ⟨sl', List.mem_cons_of_mem _ hmem, hrest⟩

theorem process_item_spec (cat cur : PyStr) (it : ProdItem) (l : Listing)
    (hl : process_item cat cur it = some l) :
    (l.supplier ≠ [] →
      l.supplier.length ≤ 200
      ∧ ∃ c, resolve_card it = some c ∧ ∃ sl ∈ c.anchors,
          normalize_indiamart_url sl.href (some cur) ≠ []
          ∧ normalize_indiamart_url sl.href (some cur) ≠ l.url
          ∧ pyContainsSub (str "/proddetail/") (normalize_indiamart_url sl.href (some cur)) = false
          ∧ looks_like_supplier_url (normalize_indiamart_url sl.href (some cur)) = true
          ∧ pyStrip sl.text ≠ []
          ∧ pyStrip sl.text ≠ pyStrip it.link.text
          ∧ l.supplier = (pyStrip sl.text).take 200)
    ∧ (resolve_card it = none → l.price = [] ∧ l.location = [] ∧ l.supplier = []) := by
  simp only [process_item] at hl
  by_cases ht : pyStrip it.link.text = [] ∨ (pyStrip it.link.text).length < 3
  · rw [if_pos ht] at hl
    exact absurd hl (by simp)
  · rw [if_neg ht] at hl
    cases hcard : resolve_card it with
    | none =>
      simp only [hcard] at hl
      have hl' := Option.some.inj hl
      subst hl'
      constructor
      · intro hsupp
        exact absurd rfl hsupp
      · intro _
        exact ⟨rfl, by simp, rfl⟩
    | some c =>
      simp only [hcard] at hl
      have hl' := Option.some.inj hl
      subst hl'
      constructor
      · intro hsupp
        obtain ⟨sl, hmem, hh1, hh2, hh3, hh4, hh5, hh6, hh7⟩ :=
          supplier_from_spec (normalize_indiamart_url it.link.href (some cur))
            (pyStrip it.link.text) cur c.anchors _ rfl hsupp
        refine ⟨?_, c, rfl, sl, hmem, hh1, hh2, hh3, hh4, hh5, hh6, hh7⟩
        rw [hh7]
        exact List.length_take_le _ _
      · intro hnone
        exact absurd hnone (by simp)

/-- **C9** (amended): every listing produced by `scrape_category` arises
from `process_item`; for every listing produced by `process_item`, a
non-empty supplier field is at most 200 characters and is the
200-character truncation of the stripped text of an anchor inside the
resolved card whose normalized URL is non-empty, differs from the
listing's own url, does not contain `"/proddetail/"` and satisfies
`looks_like_supplier_url`, with that anchor's stripped text different from
the stripped (untruncated) title; and when no card is resolved at all,
price, location and supplier are all empty. (The original claim's
"supplier is not equal to the listing's title" conjunct fails: the two
truncations can coincide — see the counterexample.) -/
theorem scrape_listing_supplier_invariants :
    (∀ fetch cat url mL mP r, r ∈ (scrape_category fetch cat url mL mP).1 →
      ∃ cur it, process_item cat cur it = some r)
    ∧ (∀ cat cur it l, process_item cat cur it = some l →
      (l.supplier ≠ [] →
        l.supplier.length ≤ 200
        ∧ ∃ c, resolve_card it = some c ∧ ∃ sl ∈ c.anchors,
            normalize_indiamart_url sl.href (some cur) ≠ []
            ∧ normalize_indiamart_url sl.href (some cur) ≠ l.url
            ∧ pyContainsSub (str "/proddetail/") (normalize_indiamart_url sl.href (some cur)) = false
            ∧ looks_like_supplier_url (normalize_indiamart_url sl.href (some cur)) = true
            ∧ pyStrip sl.text ≠ []
            ∧ pyStrip sl.text ≠ pyStrip it.link.text
            ∧ l.supplier = (pyStrip sl.text).take 200)
      ∧ (resolve_card it = none → l.price = [] ∧ l.location = [] ∧ l.supplier = [])) :=
  ⟨fun fetch cat url mL mP r hr => scrape_category_mem fetch cat url mL mP r hr,
   fun cat cur it l hl => process_item_spec cat cur it l hl⟩

/-- A 200-character title. -/
def longName : PyStr := List.replicate 200 'a'

/-- A 201-character supplier anchor text extending `longName`. -/
def longName1 : PyStr := List.replicate 201 'a'

/-- The product link of the supplier/title clash card. -/
def clashLink : CardAnchor := ⟨str "https://www.indiamart.com/proddetail/hp1", longName⟩

/-- A product item whose card holds a qualifying supplier anchor whose
201-character text truncates to the 200-character title. -/
def clashItem : ProdItem :=
  ⟨clashLink,
   [⟨false, str "₹ 1",
     [clashLink, ⟨str "https://www.indiamart.com/company/abc", longName1⟩]⟩]⟩

/-- The page holding the clash item. -/
def pageClash : Page := { items := [clashItem], nav := [] }

set_option maxRecDepth 8192 in
/-- The original claim fails on the code: `scrape_category` can produce a
listing whose non-empty supplier field equals the listing's title — the
supplier text (201 `a`s, different from the title) is truncated to 200
characters, which is exactly the title. -/
theorem scrape_category_supplier_equals_title :
    ∃ r ∈ (scrape_category (fun _ => pageClash) (str "Industrial Machinery")
        (str "https://dir.indiamart.com/impcat/machines.html") none 1).1,
      r.supplier ≠ [] ∧ r.supplier = r.title := by decide

/-- The supplier anchor of the well-behaved witness card. -/
def supCardLink : CardAnchor :=
  ⟨str "https://www.indiamart.com/proddetail/hp1", str "Hydraulic Press"⟩

/-- A product item with a qualifying supplier anchor (`ABC Traders`). -/
def supItem : ProdItem :=
  ⟨supCardLink,
   [⟨false, str "₹ 500",
     [supCardLink, ⟨str "https://www.indiamart.com/company/abc-traders", str "ABC Traders"⟩]⟩]⟩

/-- The listing `process_item` produces from `supItem`. -/
def supRow : Listing :=
  { title := str "Hydraulic Press", price := str "₹ 500", supplier := str "ABC Traders"
    location := [], category := str "Industrial Machinery"
    url := str "https://www.indiamart.com/proddetail/hp1", scraped_at := [] }

/-- Closed instance of `scrape_listing_supplier_invariants` on `supItem`. -/
theorem scrape_listing_supplier_invariants_witness :
    supRow.supplier.length ≤ 200
    ∧ ∃ c, resolve_card supItem = some c ∧ ∃ sl ∈ c.anchors,
        normalize_indiamart_url sl.href (some (str "https://dir.indiamart.com/impcat/machines.html")) ≠ []
        ∧ normalize_indiamart_url sl.href (some (str "https://dir.indiamart.com/impcat/machines.html")) ≠ supRow.url
        ∧ pyContainsSub (str "/proddetail/")
            (normalize_indiamart_url sl.href (some (str "https://dir.indiamart.com/impcat/machines.html"))) = false
        ∧ looks_like_supplier_url
            (normalize_indiamart_url sl.href (some (str "https://dir.indiamart.com/impcat/machines.html"))) = true
        ∧ pyStrip sl.text ≠ []
        ∧ pyStrip sl.text ≠ pyStrip supItem.link.text
        ∧ supRow.supplier = (pyStrip sl.text).take 200 :=
  (scrape_listing_supplier_invariants.2 (str "Industrial Machinery")
    (str "https://dir.indiamart.com/impcat/machines.html") supItem supRow (by decide)).1 (by decide)

end Scraper
